import Mathlib

/-!
Shallow embedding of `src/main.rs` of neovim-gtk: the command-line surface of
the application (flag scanning over raw `std::env::args()`, the clap argument
matcher for the declared `App`, piped-stdin capture, and the construction of
`ShellOptions` in the `activate` / `open` GTK callbacks and the `new-window`
action).  Machine integers are modelled as `Nat` with explicit `< 2 ^ 64`
bounds, `Duration` by its whole-second count (`Duration::from_secs` is
injective on `u64`), and fallible reads by `Except`.
-/

namespace NvimGtk

/-- Source constant `TIMEOUT_ARG` from `main.rs`. -/
def TIMEOUT_ARG : String := "--timeout"

/-- Source constant `DISABLE_WIN_STATE_RESTORE` from `main.rs`. -/
def DISABLE_WIN_STATE_RESTORE : String := "--disable-win-restore"

/-- Source constant `NO_FORK` from `main.rs`. -/
def NO_FORK : String := "--no-fork"

/-- Rust `str::starts_with` on its pattern argument: character-list prefix
test (UTF-8 makes character-prefix and byte-prefix agree). -/
def starts_with (s p : String) : Bool :=
  p.data.isPrefixOf s.data

/-- Rust `u64::from_str` on a list of characters: an optional leading `+`,
then one or more ASCII digits whose decimal value fits in 64 bits; anything
else (empty, stray characters, overflow, a `-` sign) is a parse error,
modelled as `none`. -/
def u64FromChars (cs : List Char) : Option Nat :=
  let ds := if cs.head? = some '+' then cs.drop 1 else cs
  if ds = [] then none
  else if ds.all (fun c => c.isDigit) then
    let v := ds.foldl (fun acc c => acc * 10 + (c.toNat - 48)) 0
    if v < 2 ^ 64 then some v else none
  else none

/-- Rust `p.split('=').nth(1)` on the character list of `p`: the chunk of
characters strictly after the first `=` and before the next `=` (or the end),
`none` when the string holds no `=` at all (the split yields a single chunk). -/
def afterFirstEq : List Char → Option (List Char)
  | [] => none
  | c :: cs => if c = '=' then some (cs.takeWhile (fun d => d ≠ '=')) else afterFirstEq cs

/-- Specification-side total form of "the field after the first `=`":
drop everything up to and including the first `=`, then take up to the next
`=`.  Meaningful when the list contains `=`. -/
def fieldAfterFirstEq (cs : List Char) : List Char :=
  ((cs.dropWhile (fun d => d ≠ '=')).drop 1).takeWhile (fun d => d ≠ '=')

/-- Source `fn nvim_timeout`: scan the raw argument iterator for the first
argument that starts with `--timeout`, split it on `=`, take the field after
the first `=`, and parse it as a `u64` second count (`Duration::from_secs`);
any failure yields `none`. -/
def nvim_timeout (args : List String) : Option Nat :=
  ((args.find? fun a => starts_with a TIMEOUT_ARG).bind fun p =>
    afterFirstEq p.data).bind u64FromChars

/-- Source `fn nvim_disable_win_state`: true when the raw argument iterator
holds an argument starting with `--disable-win-restore`. -/
def nvim_disable_win_state (args : List String) : Bool :=
  (((args.find? fun a => starts_with a DISABLE_WIN_STATE_RESTORE).map
    fun _ => true)).getD false

/-- The fork decision in `fn main` (unix block): daemonize exactly when
`env::args().take_while(|a| *a != "--").skip(1).find(|a| a.starts_with(NO_FORK))`
finds nothing. -/
def want_fork (args : List String) : Bool :=
  (((args.takeWhile fun a => a ≠ "--").drop 1).find? fun a =>
    starts_with a NO_FORK).isNone

/-- Result of clap `App::get_matches` for the `App` declared in `main`:
for each declared argument, `none` when it did not occur on the command line,
`some vals` with the list of captured values when it did.  Per clap 2.x, an
argument declared WITHOUT `takes_value(true)` (here `enable-swap`) is matched
with an empty value list, so `value_of` on it yields `None` even when the
flag was given. -/
structure ArgMatches where
  enable_swap : Option (List String)
  nvim_bin_path : Option (List String)
  files : Option (List String)
  nvim_args : Option (List String)
deriving DecidableEq, Repr

/-- The matches before any argument is processed. -/
def ArgMatches.empty : ArgMatches :=
  { enable_swap := none, nvim_bin_path := none, files := none, nvim_args := none }

/-- clap `ArgMatches::value_of` on one matched argument's record: the first
captured value, `none` when the argument is absent or captured no value. -/
def value_of (o : Option (List String)) : Option String :=
  o.bind List.head?

/-- clap `ArgMatches::values_of(..).map(collect).unwrap_or(vec![])` on one
matched argument's record. -/
def values_of_or_empty (o : Option (List String)) : List String :=
  o.getD []

/-- clap 2.x matching for the `App` declared in `main` (flag `--enable-swap`,
option `--nvim-bin-path` taking one value, positional `files` multiple, and
`nvim-args` declared `last(true)` so it captures every token after the first
literal `--`).  `none` models clap aborting the process: unknown flag, a
value-less `--nvim-bin-path`, a value handed to the value-less flag, a
duplicate occurrence of a non-multiple argument, or the auto `--help` /
`--version` paths. -/
def clapParse : List String → ArgMatches → Option ArgMatches
  | [], m => some m
  | t :: rest, m =>
    if t = "--" then
      some { m with nvim_args := some (m.nvim_args.getD [] ++ rest) }
    else if t = "--enable-swap" then
      if m.enable_swap.isSome then none
      else clapParse rest { m with enable_swap := some [] }
    else if t = "--nvim-bin-path" then
      match rest with
      | [] => none
      | v :: rest2 =>
        if starts_with v "-" && v ≠ "-" then none
        else if m.nvim_bin_path.isSome then none
        else clapParse rest2 { m with nvim_bin_path := some [v] }
    else if starts_with t "--nvim-bin-path=" then
      if m.nvim_bin_path.isSome then none
      else clapParse rest { m with nvim_bin_path := some [String.mk (t.data.drop 16)] }
    else if starts_with t "--enable-swap=" then none
    else if starts_with t "--" then none
    else if starts_with t "-" && t ≠ "-" then none
    else clapParse rest { m with files := some (m.files.getD [] ++ [t]) }

/-- The `ShellOptions` record built by `ShellOptions::new` at both call
sites in `main.rs`, fields in the positional order of the constructor call:
nvim binary path, paths to open, startup timeout (seconds), extra nvim
arguments, initial input data, swap-file enablement. -/
structure ShellOptions where
  nvim_bin_path : Option String
  open_paths : List String
  timeout : Option Nat
  args_for_neovim : List String
  input_data : Option String
  enable_swap : Bool
deriving DecidableEq, Repr

/-- What a callback hands to the UI: the `ShellOptions` passed to `Ui::new`
and the boolean second argument of `ui.init(app, restore)` (the negated
`nvim_disable_win_state`). -/
structure UiLaunch where
  opts : ShellOptions
  restore_win_state : Bool
deriving DecidableEq, Repr

/-- Source `fn activate`: build `ShellOptions` from the clap matches, the raw
`std::env::args()` list and the input-data argument, then `ui.init` with the
negation of `nvim_disable_win_state`. -/
def activate (m : ArgMatches) (env : List String) (input_data : Option String) :
    UiLaunch :=
  { opts :=
      { nvim_bin_path := value_of m.nvim_bin_path
        open_paths := []
        timeout := nvim_timeout env
        args_for_neovim := values_of_or_empty m.nvim_args
        input_data := input_data
        enable_swap := (value_of m.enable_swap).isSome }
    restore_win_state := ! nvim_disable_win_state env }

/-- A `gio::File` path (`PathBuf`), abstracted by `Path::to_str`: `some s`
when the path is valid UTF-8 with string form `s`, else `none`. -/
structure GPath where
  to_str : Option String
deriving DecidableEq, Repr

/-- A `gio::File` handed to the `open` callback: `get_path` is `none` when
the file has no local filesystem path. -/
structure GFile where
  get_path : Option GPath
deriving DecidableEq, Repr

/-- The per-file extraction inside `open`'s `filter_map`:
`f.get_path()?.to_str().map(str::to_owned)`. -/
def gio_file_path_utf8 (f : GFile) : Option String :=
  f.get_path.bind GPath.to_str

/-- Source `fn open`: build the UTF-8 path list from the given files by
`filter_map`, then `ShellOptions` exactly as `activate` does except that the
path list is the files list and `input_data` is literally `None`. -/
def gtk_open (files : List GFile) (m : ArgMatches) (env : List String) :
    UiLaunch :=
  { opts :=
      { nvim_bin_path := value_of m.nvim_bin_path
        open_paths := files.filterMap gio_file_path_utf8
        timeout := nvim_timeout env
        args_for_neovim := values_of_or_empty m.nvim_args
        input_data := none
        enable_swap := (value_of m.enable_swap).isSome }
    restore_win_state := ! nvim_disable_win_state env }

/-- The state of standard input at startup: whether it is an interactive
terminal, and what `read_to_string` would deliver (the full contents on
success, an error message on failure). -/
structure StdinState where
  is_tty : Bool
  read_all : Except String String
deriving Repr

/-- Source `fn read_piped_input`: when stdin is not a tty, read it to the
end; a successful read of at least one byte yields the buffer, a zero-byte
read or a read error (logged) yields `None`; a tty yields `None`. -/
def read_piped_input (stdin : StdinState) : Option String :=
  if ! stdin.is_tty then
    match stdin.read_all with
    | Except.ok buf => if buf.utf8ByteSize > 0 then some buf else none
    | Except.error _ => none
  else none

/-- One occurrence of a session-creating callback wired up in `main`:
the GTK `activate` signal, the GTK `open` signal with its file list, or the
`new-window` action. -/
inductive AppEvent where
  | activateSig : AppEvent
  | openSig : List GFile → AppEvent
  | newWindow : AppEvent
deriving DecidableEq, Repr

/-- The callback wiring of `main`: the stdin capture lives in a
`RefCell<Option<String>>`; the `activate` closure passes
`input_data.replace(None)` (the old cell value, emptying the cell), the
`open` closure builds its options with no input data, and the `new-window`
action calls `activate` with literal `None` without touching the cell.
Returns the `input_data` field of each created session's `ShellOptions`,
in event order. -/
def runEvents (m : ArgMatches) (env : List String) :
    Option String → List AppEvent → List (Option String)
  | _, [] => []
  | cell, AppEvent.activateSig :: es =>
    (activate m env cell).opts.input_data :: runEvents m env none es
  | cell, AppEvent.openSig fs :: es =>
    (gtk_open fs m env).opts.input_data :: runEvents m env cell es
  | cell, AppEvent.newWindow :: es =>
    (activate m env none).opts.input_data :: runEvents m env cell es


/-! ## Helper lemmas -/

theorem find?_eq_some_iff_idx {α : Type*} (p : α → Bool) (l : List α) (a : α) :
    l.find? p = some a ↔
      ∃ i : Nat, l[i]? = some a ∧ p a = true ∧
        ∀ (j : Nat) (b : α), j < i → l[j]? = some b → p b = false := by
  induction l with
  | nil => simp
  | cons x xs ih =>
    rw [List.find?_cons]
    cases hx : p x with
    | true =>
      simp only [Option.some.injEq]
      constructor
      · rintro rfl
        exact ⟨0, by simp, hx, fun j b hj _ => by omega⟩
      · rintro ⟨i, hi, hpa, hmin⟩
        cases i with
        | zero =>
          rw [List.getElem?_cons_zero] at hi
          exact Option.some.inj hi
        | succ k =>
          have h0 := hmin 0 x (Nat.succ_pos k) (by simp)
          rw [hx] at h0
          cases h0
    | false =>
      rw [ih]
      constructor
      · rintro ⟨i, hi, hpa, hmin⟩
        refine ⟨i + 1, by simpa using hi, hpa, ?_⟩
        intro j b hj hb
        cases j with
        | zero =>
          rw [List.getElem?_cons_zero] at hb
          cases hb
          exact hx
        | succ k =>
          rw [List.getElem?_cons_succ] at hb
          exact hmin k b (by omega) hb
      · rintro ⟨i, hi, hpa, hmin⟩
        cases i with
        | zero =>
          rw [List.getElem?_cons_zero] at hi
          cases hi
          rw [hx] at hpa
          cases hpa
        | succ k =>
          rw [List.getElem?_cons_succ] at hi
          exact ⟨k, hi, hpa, fun j b hj hb =>
            hmin (j + 1) b (by omega) (by rw [List.getElem?_cons_succ]; exact hb)⟩

theorem afterFirstEq_eq_none_iff (cs : List Char) :
    afterFirstEq cs = none ↔ '=' ∉ cs := by
  induction cs with
  | nil => simp [afterFirstEq]
  | cons c cs ih =>
    by_cases hc : c = '='
    · subst hc
      simp [afterFirstEq]
    · simp [afterFirstEq, hc, ih, Ne.symm hc]

theorem afterFirstEq_of_mem {cs : List Char} (h : '=' ∈ cs) :
    afterFirstEq cs = some (fieldAfterFirstEq cs) := by
  induction cs with
  | nil => cases h
  | cons c cs ih =>
    by_cases hc : c = '='
    · subst hc
      simp [afterFirstEq, fieldAfterFirstEq, List.dropWhile_cons]
    · rcases List.mem_cons.mp h with h1 | h2
      · exact absurd h1.symm hc
      · rw [show afterFirstEq (c :: cs) = afterFirstEq cs by simp [afterFirstEq, hc],
          ih h2]
        congr 1
        simp [fieldAfterFirstEq, List.dropWhile_cons, hc]

/-! ## Claim theorems -/

/-- Claim C2: `nvim_timeout` yields `some t` (the session's startup-timeout
ceiling `Duration::from_secs t`) exactly when the first command-line argument
that starts with `--timeout` contains an `=` and the field after the first
`=` parses as an unsigned 64-bit integer `t`; in every other case it yields
`none` and the session has no startup-timeout ceiling. -/
theorem nvim_timeout_startup_ceiling_iff (args : List String) (t : Nat) :
    nvim_timeout args = some t ↔
      ∃ (i : Nat) (a : String), args[i]? = some a ∧ starts_with a TIMEOUT_ARG = true ∧
        (∀ (j : Nat) (b : String), j < i → args[j]? = some b → starts_with b TIMEOUT_ARG = false) ∧
        '=' ∈ a.data ∧ u64FromChars (fieldAfterFirstEq a.data) = some t := by
  unfold nvim_timeout
  cases hf : args.find? (fun a => starts_with a TIMEOUT_ARG) with
  | none =>
    simp only [Option.none_bind]
    constructor
    · intro h
      cases h
    · rintro ⟨i, a, hi, hp, -, -, -⟩
      have hmem : a ∈ args := List.getElem?_mem hi
      have := List.find?_eq_none.mp hf a hmem
      rw [hp] at this
      cases this rfl
  | some a0 =>
    have h0 := (find?_eq_some_iff_idx (fun a => starts_with a TIMEOUT_ARG) args a0).mp hf
    rcases h0 with ⟨i0, hi0, hp0, hmin0⟩
    simp only [Option.some_bind]
    constructor
    · intro h
      rcases Option.bind_eq_some.mp h with ⟨f, hfeq, hparse⟩
      have hmem : '=' ∈ a0.data := by
        by_contra hnot
        rw [(afterFirstEq_eq_none_iff a0.data).mpr hnot] at hfeq
        cases hfeq
      rw [afterFirstEq_of_mem hmem] at hfeq
      cases hfeq
      exact ⟨i0, a0, hi0, hp0, hmin0, hmem, hparse⟩
    · rintro ⟨i, a, hi, hp, hmin, hmem, hparse⟩
      have : args.find? (fun a => starts_with a TIMEOUT_ARG) = some a :=
        (find?_eq_some_iff_idx _ args a).mpr ⟨i, hi, hp, hmin⟩
      rw [hf] at this
      cases this
      rw [afterFirstEq_of_mem hmem]
      exact hparse

/-- Claim C4: `read_piped_input` returns the full piped contents exactly when
stdin is not an interactive terminal and reading it to the end succeeds with
at least one byte; a terminal, an empty pipe, or a (logged) read failure all
yield `none` without aborting startup. -/
theorem read_piped_input_contract (st : StdinState) :
    (∀ s, read_piped_input st = some s ↔
      st.is_tty = false ∧ st.read_all = Except.ok s ∧ 0 < s.utf8ByteSize)
    ∧ (st.is_tty = true → read_piped_input st = none)
    ∧ (∀ e, st.read_all = Except.error e → read_piped_input st = none)
    ∧ (∀ s, st.read_all = Except.ok s → s.utf8ByteSize = 0 →
        read_piped_input st = none) := by
  obtain ⟨tty, r⟩ := st
  refine ⟨?_, ?_, ?_, ?_⟩
  · intro s
    cases tty with
    | true => simp [read_piped_input]
    | false =>
      cases r with
      | ok buf =>
        by_cases hb : buf.utf8ByteSize > 0
        · rw [show read_piped_input ⟨false, Except.ok buf⟩ = some buf from by
            simp [read_piped_input, hb]]
          constructor
          · intro h
            cases h
            exact ⟨rfl, rfl, hb⟩
          · rintro ⟨-, hok, -⟩
            cases hok
            rfl
        · have h0 : buf.utf8ByteSize = 0 := by omega
          rw [show read_piped_input ⟨false, Except.ok buf⟩ = none from by
            simp [read_piped_input, h0]]
          constructor
          · intro h
            cases h
          · rintro ⟨-, hok, hpos⟩
            cases hok
            omega
      | error e => simp [read_piped_input]
  · intro htty
    cases tty with
    | true => rfl
    | false => cases htty
  · intro e he
    cases tty with
    | true => rfl
    | false =>
      cases r with
      | ok buf => cases he
      | error e2 =>
        cases he
        rfl
  · intro s hok hsize
    cases tty with
    | true => rfl
    | false =>
      cases r with
      | ok buf =>
        cases hok
        simp [read_piped_input, hsize]
      | error e2 => cases hok

/-- Witness for the hypotheses of `read_piped_input_contract`: a terminal, a
failing read and an empty pipe each produce `none` at concrete inputs. -/
theorem read_piped_input_contract_w :
    read_piped_input { is_tty := true, read_all := Except.ok "hi" } = none
    ∧ read_piped_input { is_tty := false, read_all := Except.error "boom" } = none
    ∧ read_piped_input { is_tty := false, read_all := Except.ok "" } = none :=
  ⟨(read_piped_input_contract _).2.1 rfl,
   (read_piped_input_contract _).2.2.1 "boom" rfl,
   (read_piped_input_contract _).2.2.2 "" rfl rfl⟩

theorem find?_isSome_eq_any {α : Type*} (p : α → Bool) (l : List α) :
    (l.find? p).isSome = l.any p := by
  rw [Bool.eq_iff_iff, List.find?_isSome, List.any_eq_true]

theorem nvim_disable_win_state_eq_any (args : List String) :
    nvim_disable_win_state args
      = args.any fun a => starts_with a DISABLE_WIN_STATE_RESTORE := by
  rw [← find?_isSome_eq_any]
  unfold nvim_disable_win_state
  cases h : args.find? (fun a => starts_with a DISABLE_WIN_STATE_RESTORE) <;>
    simp [h]

theorem filterMap_eq_reduceOption_map {α β : Type*} (f : α → Option β)
    (l : List α) : l.filterMap f = (l.map f).reduceOption := by
  show l.filterMap f = (l.map f).filterMap id
  rw [List.filterMap_map]
  rfl

theorem length_filterMap_eq_length_filter {α β : Type*} (f : α → Option β)
    (l : List α) :
    (l.filterMap f).length = (l.filter fun a => (f a).isSome).length := by
  induction l with
  | nil => rfl
  | cons a t ih =>
    cases h : f a <;> simp [List.filterMap_cons, List.filter_cons, h, ih]

theorem mem_takeWhile_iff_idx {α : Type*} (p : α → Bool) (l : List α) (x : α) :
    x ∈ l.takeWhile p ↔
      ∃ i : Nat, l[i]? = some x ∧
        ∀ (j : Nat) (b : α), j ≤ i → l[j]? = some b → p b = true := by
  induction l with
  | nil => simp
  | cons a t ih =>
    rw [List.takeWhile_cons]
    by_cases ha : p a = true
    · rw [if_pos ha]
      simp only [List.mem_cons]
      constructor
      · rintro (rfl | hx)
        · refine ⟨0, by simp, ?_⟩
          intro j b hj hb
          cases j with
          | zero =>
            rw [List.getElem?_cons_zero] at hb
            cases hb
            exact ha
          | succ k => omega
        · rcases ih.mp hx with ⟨i, hi, hall⟩
          refine ⟨i + 1, by simpa using hi, ?_⟩
          intro j b hj hb
          cases j with
          | zero =>
            rw [List.getElem?_cons_zero] at hb
            cases hb
            exact ha
          | succ k =>
            rw [List.getElem?_cons_succ] at hb
            exact hall k b (by omega) hb
      · rintro ⟨i, hi, hall⟩
        cases i with
        | zero =>
          rw [List.getElem?_cons_zero] at hi
          exact Or.inl (Option.some.inj hi).symm
        | succ k =>
          rw [List.getElem?_cons_succ] at hi
          refine Or.inr (ih.mpr ⟨k, hi, ?_⟩)
          intro j b hj hb
          exact hall (j + 1) b (by omega)
            (by rw [List.getElem?_cons_succ]; exact hb)
    · rw [if_neg ha]
      simp only [List.not_mem_nil, false_iff]
      rintro ⟨i, hi, hall⟩
      exact ha (hall 0 a (Nat.zero_le i) (by simp))

theorem takeWhile_append_of_all {α : Type*} (p : α → Bool) {pre : List α}
    (post : List α) (h : ∀ x ∈ pre, p x = true) {a : α} (ha : p a = false) :
    (pre ++ a :: post).takeWhile p = pre := by
  induction pre with
  | nil => simp [List.takeWhile_cons, ha]
  | cons y t ih =>
    rw [List.cons_append, List.takeWhile_cons, if_pos (h y (by simp))]
    rw [ih fun x hx => h x (by simp [hx])]

theorem want_fork_eq_false_iff (args : List String) :
    want_fork args = false ↔
      ∃ (i : Nat) (a : String), 1 ≤ i ∧ args[i]? = some a ∧
        starts_with a NO_FORK = true ∧
        ∀ (j : Nat) (b : String), j ≤ i → args[j]? = some b → b ≠ "--" := by
  unfold want_fork
  rw [show ∀ o : Option String, (o.isNone = false ↔ o.isSome = true) from
    fun o => by cases o <;> simp, List.find?_isSome]
  cases args with
  | nil =>
    constructor
    · rintro ⟨x, hx, -⟩
      simp at hx
    · rintro ⟨i, a, -, hia, -⟩
      simp at hia
  | cons a0 rest =>
    rw [List.takeWhile_cons]
    by_cases h0 : a0 = "--"
    · subst h0
      rw [if_neg (by simp)]
      constructor
      · rintro ⟨x, hx, -⟩
        simp at hx
      · rintro ⟨i, a, h1, hia, hsw, hno⟩
        exact absurd rfl (hno 0 "--" (by omega) (by simp))
    · rw [if_pos (by simp [h0])]
      simp only [List.drop_succ_cons, List.drop_zero]
      constructor
      · rintro ⟨x, hx, hq⟩
        rcases (mem_takeWhile_iff_idx _ rest x).mp hx with ⟨k, hk, hall⟩
        refine ⟨k + 1, x, by omega, by simpa using hk, hq, ?_⟩
        intro j b hj hb
        cases j with
        | zero =>
          rw [List.getElem?_cons_zero] at hb
          cases hb
          exact h0
        | succ m =>
          rw [List.getElem?_cons_succ] at hb
          exact of_decide_eq_true (hall m b (by omega) hb)
      · rintro ⟨i, a, h1, hia, hsw, hno⟩
        cases i with
        | zero => omega
        | succ k =>
          rw [List.getElem?_cons_succ] at hia
          refine ⟨a, (mem_takeWhile_iff_idx _ rest a).mpr ⟨k, hia, ?_⟩, hsw⟩
          intro m b hm hb
          exact decide_eq_true (hno (m + 1) b (by omega)
            (by rw [List.getElem?_cons_succ]; exact hb))

/-- Claim C5: on Unix, startup daemonizes to the background if and only if no
command-line argument located after the program name and before the first
literal `--` starts with `--no-fork`. -/
theorem no_fork_daemonize_iff (args : List String) :
    want_fork args = true ↔
      ¬ ∃ (i : Nat) (a : String), 1 ≤ i ∧ args[i]? = some a ∧
          starts_with a NO_FORK = true ∧
          ∀ (j : Nat) (b : String), j ≤ i → args[j]? = some b → b ≠ "--" := by
  rw [← want_fork_eq_false_iff]
  cases h : want_fork args <;> simp

/-- Claim C6: `nvim_disable_win_state` is true exactly when some raw argument
starts with `--disable-win-restore`, and both `activate` and `open` call
`Ui::init` with its negation, so window-state restore is skipped exactly when
the flag is present. -/
theorem disable_win_restore_contract (env : List String) :
    (nvim_disable_win_state env = true ↔
      ∃ a ∈ env, starts_with a DISABLE_WIN_STATE_RESTORE = true)
    ∧ (∀ m input_data, (activate m env input_data).restore_win_state
        = ! nvim_disable_win_state env)
    ∧ (∀ files m, (gtk_open files m env).restore_win_state
        = ! nvim_disable_win_state env) := by
  refine ⟨?_, fun m i => rfl, fun files m => rfl⟩
  rw [nvim_disable_win_state_eq_any, List.any_eq_true]

/-- Claim C8: `open` passes to `ShellOptions` exactly those given files whose
filesystem path exists and is convertible to UTF-8, as path strings in the
original order; a file without such a path is silently omitted. -/
theorem open_files_utf8_paths (files : List GFile) (m : ArgMatches)
    (env : List String) :
    (gtk_open files m env).opts.open_paths
        = (files.map gio_file_path_utf8).reduceOption
    ∧ (∀ s, s ∈ (gtk_open files m env).opts.open_paths ↔
        ∃ f ∈ files, gio_file_path_utf8 f = some s)
    ∧ (gtk_open files m env).opts.open_paths.length
        = (files.filter fun f => (gio_file_path_utf8 f).isSome).length :=
  ⟨filterMap_eq_reduceOption_map _ _, fun _ => List.mem_filterMap,
    length_filterMap_eq_length_filter _ _⟩

/-- Claim C9: `--timeout` and `--disable-win-restore` are recognized by
prefix match anywhere in the raw argument list (a mere prefix such as
`--timeout2=5` counts, and so does an occurrence after the `--` separator),
while the `--no-fork` check inspects only arguments strictly between the
program name and the first literal `--`. -/
theorem arg_scan_scope_contract :
    (∀ args : List String, nvim_disable_win_state args
        = args.any fun a => starts_with a DISABLE_WIN_STATE_RESTORE)
    ∧ nvim_timeout ["--timeout2=5"] = some 5
    ∧ nvim_timeout ["nvim-gtk", "--", "--timeout=3"] = some 3
    ∧ nvim_disable_win_state ["nvim-gtk", "--", "--disable-win-restore"] = true
    ∧ (∀ (a0 : String) (pre post : List String), "--" ∉ pre →
        want_fork (a0 :: (pre ++ "--" :: post)) = want_fork (a0 :: pre))
    ∧ (∀ rest : List String,
        want_fork ("--no-fork" :: rest) = want_fork ("nvim-gtk" :: rest)) := by
  refine ⟨nvim_disable_win_state_eq_any, by decide, by decide, by decide,
    ?_, ?_⟩
  · intro a0 pre post hpre
    unfold want_fork
    rw [List.takeWhile_cons, List.takeWhile_cons]
    by_cases h0 : a0 = "--"
    · rw [if_neg (by simp [h0]), if_neg (by simp [h0])]
    · rw [if_pos (by simp [h0]), if_pos (by simp [h0])]
      simp only [List.drop_succ_cons, List.drop_zero]
      have hall : ∀ x ∈ pre, decide (x ≠ "--") = true := by
        intro x hx
        rw [decide_eq_true_eq]
        intro hcon
        exact hpre (hcon ▸ hx)
      rw [takeWhile_append_of_all _ post hall (by simp),
        List.takeWhile_eq_self_iff.mpr hall]
  · intro rest
    unfold want_fork
    rw [List.takeWhile_cons, List.takeWhile_cons,
      if_pos (by simp), if_pos (by simp)]
    simp only [List.drop_succ_cons, List.drop_zero]

/-- Witness for `arg_scan_scope_contract`: the no-fork scan ignores
everything from the first `--` on, at a concrete command line. -/
theorem arg_scan_scope_contract_w :
    want_fork ["nvim-gtk", "a", "--", "b"] = want_fork ["nvim-gtk", "a"] :=
  arg_scan_scope_contract.2.2.2.2.1 "nvim-gtk" ["a"] ["b"] (by decide)

theorem clapParse_inv : ∀ (n : Nat) (argv : List String) (m0 m : ArgMatches),
    argv.length ≤ n → clapParse argv m0 = some m →
    ((m0.enable_swap = none ∨ m0.enable_swap = some []) →
      (m.enable_swap = none ∨ m.enable_swap = some []))
    ∧ ("--" ∉ argv → m.nvim_args = m0.nvim_args)
    ∧ (∀ pre post, argv = pre ++ "--" :: post → "--" ∉ pre →
        m.nvim_args = some (m0.nvim_args.getD [] ++ post))
    ∧ ((∀ x ∈ argv, x ≠ "--nvim-bin-path"
          ∧ starts_with x "--nvim-bin-path=" = false) →
        m.nvim_bin_path = m0.nvim_bin_path) := by
  intro n
  induction n with
  | zero =>
    intro argv m0 m hlen hp
    have hargv : argv = [] := List.length_eq_zero.mp (Nat.le_zero.mp hlen)
    subst hargv
    rw [clapParse.eq_def] at hp
    simp only [Option.some.injEq] at hp
    subst hp
    refine ⟨fun h => h, fun _ => rfl, ?_, fun _ => rfl⟩
    intro pre post hdec hno
    cases pre <;> simp at hdec
  | succ k ih =>
    intro argv m0 m hlen hp
    cases argv with
    | nil =>
      rw [clapParse.eq_def] at hp
      simp only [Option.some.injEq] at hp
      subst hp
      refine ⟨fun h => h, fun _ => rfl, ?_, fun _ => rfl⟩
      intro pre post hdec hno
      cases pre <;> simp at hdec
    | cons t rest =>
      have hr : rest.length ≤ k := by
        simp only [List.length_cons] at hlen
        omega
      rw [clapParse.eq_def] at hp
      simp only [] at hp
      by_cases hc1 : t = "--"
      · rw [if_pos hc1] at hp
        rw [Option.some.injEq] at hp
        subst hp
        subst hc1
        refine ⟨fun h => h, ?_, ?_, fun _ => rfl⟩
        · intro hno
          exact absurd (List.mem_cons_self _ _) hno
        · intro pre post hdec hno
          cases pre with
          | nil =>
            simp only [List.nil_append, List.cons.injEq] at hdec
            rw [hdec.2]
          | cons p ps =>
            simp only [List.cons_append, List.cons.injEq] at hdec
            exact absurd (hdec.1 ▸ List.mem_cons_self p ps) hno
      · rw [if_neg hc1] at hp
        by_cases hc2 : t = "--enable-swap"
        · rw [if_pos hc2] at hp
          by_cases hc2b : m0.enable_swap.isSome
          · rw [if_pos hc2b] at hp
            cases hp
          · rw [if_neg hc2b] at hp
            have IH := ih rest { m0 with enable_swap := some [] } m hr hp
            refine ⟨fun _ => IH.1 (Or.inr rfl), ?_, ?_, ?_⟩
            · intro hno
              exact IH.2.1 fun hmem => hno (List.mem_cons_of_mem _ hmem)
            · intro pre post hdec hno
              cases pre with
              | nil =>
                simp only [List.nil_append, List.cons.injEq] at hdec
                exact absurd hdec.1 hc1
              | cons p ps =>
                simp only [List.cons_append, List.cons.injEq] at hdec
                exact IH.2.2.1 ps post hdec.2
                  fun hmem => hno (List.mem_cons_of_mem _ hmem)
            · intro hall
              exact IH.2.2.2 fun x hx => hall x (List.mem_cons_of_mem _ hx)
        · rw [if_neg hc2] at hp
          by_cases hc3 : t = "--nvim-bin-path"
          · rw [if_pos hc3] at hp
            cases rest with
            | nil =>
              simp only [] at hp
              cases hp
            | cons v rest2 =>
              simp only [] at hp
              by_cases hc4 : starts_with v "-" && v ≠ "-"
              · rw [if_pos hc4] at hp
                cases hp
              · rw [if_neg hc4] at hp
                by_cases hc5 : m0.nvim_bin_path.isSome
                · rw [if_pos hc5] at hp
                  cases hp
                · rw [if_neg hc5] at hp
                  have hr2 : rest2.length ≤ k := by
                    simp only [List.length_cons] at hlen
                    omega
                  have IH := ih rest2 { m0 with nvim_bin_path := some [v] } m
                    hr2 hp
                  refine ⟨fun h => IH.1 h, ?_, ?_, ?_⟩
                  · intro hno
                    exact IH.2.1 fun hmem =>
                      hno (List.mem_cons_of_mem _ (List.mem_cons_of_mem _ hmem))
                  · intro pre post hdec hno
                    cases pre with
                    | nil =>
                      simp only [List.nil_append, List.cons.injEq] at hdec
                      exact absurd hdec.1 hc1
                    | cons p ps =>
                      simp only [List.cons_append, List.cons.injEq] at hdec
                      cases ps with
                      | nil =>
                        simp only [List.nil_append, List.cons.injEq] at hdec
                        exact absurd (by rw [hdec.2.1]; decide) hc4
                      | cons q qs =>
                        simp only [List.cons_append, List.cons.injEq] at hdec
                        exact IH.2.2.1 qs post hdec.2.2 fun hmem =>
                          hno (List.mem_cons_of_mem _ (List.mem_cons_of_mem _ hmem))
                  · intro hall
                    exact absurd rfl (hc3 ▸ (hall t (List.mem_cons_self _ _)).1)
          · rw [if_neg hc3] at hp
            by_cases hc6 : starts_with t "--nvim-bin-path=" = true
            · rw [if_pos hc6] at hp
              by_cases hc6b : m0.nvim_bin_path.isSome
              · rw [if_pos hc6b] at hp
                cases hp
              · rw [if_neg hc6b] at hp
                have IH := ih rest
                  { m0 with nvim_bin_path := some [String.mk (t.data.drop 16)] }
                  m hr hp
                refine ⟨fun h => IH.1 h, ?_, ?_, ?_⟩
                · intro hno
                  exact IH.2.1 fun hmem => hno (List.mem_cons_of_mem _ hmem)
                · intro pre post hdec hno
                  cases pre with
                  | nil =>
                    simp only [List.nil_append, List.cons.injEq] at hdec
                    exact absurd hdec.1 hc1
                  | cons p ps =>
                    simp only [List.cons_append, List.cons.injEq] at hdec
                    exact IH.2.2.1 ps post hdec.2
                      fun hmem => hno (List.mem_cons_of_mem _ hmem)
                · intro hall
                  have := (hall t (List.mem_cons_self _ _)).2
                  rw [hc6] at this
                  cases this
            · rw [if_neg hc6] at hp
              by_cases hc7 : starts_with t "--enable-swap=" = true
              · rw [if_pos hc7] at hp
                cases hp
              · rw [if_neg hc7] at hp
                by_cases hc8 : starts_with t "--" = true
                · rw [if_pos hc8] at hp
                  cases hp
                · rw [if_neg hc8] at hp
                  by_cases hc9 : starts_with t "-" && t ≠ "-"
                  · rw [if_pos hc9] at hp
                    cases hp
                  · rw [if_neg hc9] at hp
                    have IH := ih rest
                      { m0 with files := some (m0.files.getD [] ++ [t]) } m hr hp
                    refine ⟨fun h => IH.1 h, ?_, ?_, ?_⟩
                    · intro hno
                      exact IH.2.1 fun hmem => hno (List.mem_cons_of_mem _ hmem)
                    · intro pre post hdec hno
                      cases pre with
                      | nil =>
                        simp only [List.nil_append, List.cons.injEq] at hdec
                        exact absurd hdec.1 hc1
                      | cons p ps =>
                        simp only [List.cons_append, List.cons.injEq] at hdec
                        exact IH.2.2.1 ps post hdec.2
                          fun hmem => hno (List.mem_cons_of_mem _ hmem)
                    · intro hall
                      exact IH.2.2.2 fun x hx =>
                        hall x (List.mem_cons_of_mem _ hx)

/-- Claim C1 (code bug): for every command line accepted by the clap matcher,
the swap-files option of the `ShellOptions` built by both `activate` and
`open` is FALSE — even when `--enable-swap` was given — because the source
reads `matches.value_of("enable-swap").is_some()` and a flag declared without
`takes_value` never captures a value, so `value_of` is always `None`. -/
theorem enable_swap_always_false (argv : List String) (m : ArgMatches)
    (env : List String) (input_data : Option String) (files : List GFile)
    (h : clapParse argv ArgMatches.empty = some m) :
    (activate m env input_data).opts.enable_swap = false
    ∧ (gtk_open files m env).opts.enable_swap = false := by
  have hinv := (clapParse_inv argv.length argv ArgMatches.empty m
    le_rfl h).1 (Or.inl rfl)
  have hval : value_of m.enable_swap = none := by
    rcases hinv with h1 | h1 <;> rw [h1] <;> rfl
  constructor <;> simp [activate, gtk_open, hval]

/-- Witness for `enable_swap_always_false`: the command line
`--enable-swap` parses, yet the session's swap option is false. -/
theorem enable_swap_always_false_w :
    clapParse ["--enable-swap"] ArgMatches.empty
        = some { ArgMatches.empty with enable_swap := some [] }
    ∧ (activate { ArgMatches.empty with enable_swap := some [] }
        ["nvim-gtk", "--enable-swap"] none).opts.enable_swap = false :=
  ⟨by decide,
   (enable_swap_always_false ["--enable-swap"] _ ["nvim-gtk", "--enable-swap"]
      none [] (by decide)).1⟩

/-- Claim C7: both `activate` and `open` hand `ShellOptions` the
`--nvim-bin-path` value (`none` when the flag was not given) and the trailing
`--nvim-args` list in original order (`[]` when not given), and the two
callbacks build these two fields identically. -/
theorem bin_path_and_nvim_args_contract :
    (∀ (m : ArgMatches) (env : List String) (files : List GFile)
        (input_data : Option String),
      (activate m env input_data).opts.nvim_bin_path = value_of m.nvim_bin_path
      ∧ (gtk_open files m env).opts.nvim_bin_path = value_of m.nvim_bin_path
      ∧ (activate m env input_data).opts.args_for_neovim
          = values_of_or_empty m.nvim_args
      ∧ (gtk_open files m env).opts.args_for_neovim
          = values_of_or_empty m.nvim_args)
    ∧ (∀ (pre post : List String) (m : ArgMatches) (env : List String)
        (input_data : Option String), "--" ∉ pre →
        clapParse (pre ++ "--" :: post) ArgMatches.empty = some m →
        (activate m env input_data).opts.args_for_neovim = post)
    ∧ (∀ (argv : List String) (m : ArgMatches) (env : List String)
        (input_data : Option String), "--" ∉ argv →
        clapParse argv ArgMatches.empty = some m →
        (activate m env input_data).opts.args_for_neovim = [])
    ∧ (∀ (argv : List String) (m : ArgMatches) (env : List String)
        (input_data : Option String),
        (∀ x ∈ argv, x ≠ "--nvim-bin-path"
          ∧ starts_with x "--nvim-bin-path=" = false) →
        clapParse argv ArgMatches.empty = some m →
        (activate m env input_data).opts.nvim_bin_path = none)
    ∧ (clapParse ["--nvim-bin-path", "/opt/nvim", "--", "-u", "NONE"]
          ArgMatches.empty).map
          (fun m => (value_of m.nvim_bin_path, values_of_or_empty m.nvim_args))
        = some (some "/opt/nvim", ["-u", "NONE"]) := by
  refine ⟨fun m env files i => ⟨rfl, rfl, rfl, rfl⟩, ?_, ?_, ?_, by decide⟩
  · intro pre post m env i hno hp
    have h3 := (clapParse_inv (pre ++ "--" :: post).length _ ArgMatches.empty m
      le_rfl hp).2.2.1 pre post rfl hno
    show values_of_or_empty m.nvim_args = post
    rw [h3]
    rfl
  · intro argv m env i hno hp
    have h2 := (clapParse_inv argv.length argv ArgMatches.empty m
      le_rfl hp).2.1 hno
    show values_of_or_empty m.nvim_args = []
    rw [h2]
    rfl
  · intro argv m env i hall hp
    have h4 := (clapParse_inv argv.length argv ArgMatches.empty m
      le_rfl hp).2.2.2 hall
    show value_of m.nvim_bin_path = none
    rw [h4]
    rfl

/-- Witness for `bin_path_and_nvim_args_contract`: concrete command lines
exercising the trailing-args, the no-`--` and the flag-absent cases. -/
theorem bin_path_and_nvim_args_contract_w :
    (activate { ArgMatches.empty with nvim_args := some ["-u"] } ["nvim-gtk"]
        none).opts.args_for_neovim = ["-u"]
    ∧ (activate { ArgMatches.empty with files := some ["a.txt"] } ["nvim-gtk"]
        none).opts.args_for_neovim = []
    ∧ (activate { ArgMatches.empty with files := some ["a.txt"] } ["nvim-gtk"]
        none).opts.nvim_bin_path = none :=
  ⟨bin_path_and_nvim_args_contract.2.1 [] ["-u"] _ ["nvim-gtk"] none
      (by decide) (by decide),
   bin_path_and_nvim_args_contract.2.2.1 ["a.txt"] _ ["nvim-gtk"] none
      (by decide) (by decide),
   bin_path_and_nvim_args_contract.2.2.2.1 ["a.txt"] _ ["nvim-gtk"] none
      (by decide) (by decide)⟩

/-- Counterexample to claim C10 as stated: this argument list contains the
argument `--timeout=x` whose value `x` does not parse as a `u64`, yet
`nvim_timeout` is `some 1`, not `none`, because the scan only ever looks at
the FIRST argument starting with `--timeout`. -/
theorem nvim_timeout_bad_value_cex :
    nvim_timeout ["--timeout=1", "--timeout=x"] = some 1
    ∧ "--timeout=x" ∈ ["--timeout=1", "--timeout=x"]
    ∧ u64FromChars (fieldAfterFirstEq "--timeout=x".data) = none := by
  refine ⟨by decide, by decide, by decide⟩

/-- Claim C10 (amended): when the FIRST argument starting with `--timeout`
has a field after its first `=` that does not parse as an unsigned 64-bit
integer, `nvim_timeout` returns `none` (the error is logged), so startup
proceeds with no handshake-timeout ceiling instead of aborting. -/
theorem nvim_timeout_bad_value_none (args : List String) (a : String)
    (h1 : args.find? (fun x => starts_with x TIMEOUT_ARG) = some a)
    (h2 : '=' ∈ a.data)
    (h3 : u64FromChars (fieldAfterFirstEq a.data) = none) :
    nvim_timeout args = none := by
  unfold nvim_timeout
  rw [h1, Option.some_bind, afterFirstEq_of_mem h2, Option.some_bind, h3]

/-- Witness for `nvim_timeout_bad_value_none` at the concrete command line
`--timeout=x`. -/
theorem nvim_timeout_bad_value_none_w :
    nvim_timeout ["--timeout=x"] = none :=
  nvim_timeout_bad_value_none ["--timeout=x"] "--timeout=x" (by decide)
    (by decide) (by decide)

theorem runEvents_none_all_none (m : ArgMatches) (env : List String)
    (es : List AppEvent) :
    runEvents m env none es = es.map fun _ => (none : Option String) := by
  induction es with
  | nil => rfl
  | cons e t ih => cases e <;> simp [runEvents, ih, activate, gtk_open]

theorem runEvents_some_source (m : ArgMatches) (env : List String)
    (es : List AppEvent) (cell : Option String) :
    ∀ (i : Nat) (s : String),
      (runEvents m env cell es)[i]? = some (some s) →
        cell = some s ∧ es[i]? = some AppEvent.activateSig ∧
          ∀ j : Nat, j < i → es[j]? ≠ some AppEvent.activateSig := by
  induction es generalizing cell with
  | nil =>
    intro i s h
    simp [runEvents] at h
  | cons e t ih =>
    intro i s h
    cases i with
    | zero =>
      cases e with
      | activateSig =>
        rw [show runEvents m env cell (AppEvent.activateSig :: t)
            = cell :: runEvents m env none t from rfl,
          List.getElem?_cons_zero] at h
        cases h
        exact ⟨rfl, List.getElem?_cons_zero, fun j hj => by omega⟩
      | openSig fs =>
        rw [show runEvents m env cell (AppEvent.openSig fs :: t)
            = none :: runEvents m env cell t from rfl,
          List.getElem?_cons_zero] at h
        cases h
      | newWindow =>
        rw [show runEvents m env cell (AppEvent.newWindow :: t)
            = none :: runEvents m env cell t from rfl,
          List.getElem?_cons_zero] at h
        cases h
    | succ k =>
      cases e with
      | activateSig =>
        rw [show runEvents m env cell (AppEvent.activateSig :: t)
            = cell :: runEvents m env none t from rfl,
          List.getElem?_cons_succ, runEvents_none_all_none] at h
        rw [List.getElem?_map] at h
        cases ht : t[k]? with
        | none => rw [ht] at h; cases h
        | some e2 => rw [ht] at h; cases h
      | openSig fs =>
        rw [show runEvents m env cell (AppEvent.openSig fs :: t)
            = none :: runEvents m env cell t from rfl,
          List.getElem?_cons_succ] at h
        obtain ⟨h1, h2, h3⟩ := ih cell k s h
        refine ⟨h1, by rw [List.getElem?_cons_succ]; exact h2, ?_⟩
        intro j hj
        cases j with
        | zero =>
          rw [List.getElem?_cons_zero]
          intro hcon
          cases hcon
        | succ j2 =>
          rw [List.getElem?_cons_succ]
          exact h3 j2 (by omega)
      | newWindow =>
        rw [show runEvents m env cell (AppEvent.newWindow :: t)
            = none :: runEvents m env cell t from rfl,
          List.getElem?_cons_succ] at h
        obtain ⟨h1, h2, h3⟩ := ih cell k s h
        refine ⟨h1, by rw [List.getElem?_cons_succ]; exact h2, ?_⟩
        intro j hj
        cases j with
        | zero =>
          rw [List.getElem?_cons_zero]
          intro hcon
          cases hcon
        | succ j2 =>
          rw [List.getElem?_cons_succ]
          exact h3 j2 (by omega)

theorem runEvents_first_activate (m : ArgMatches) (env : List String)
    (es : List AppEvent) (cell : Option String) :
    ∀ i : Nat, es[i]? = some AppEvent.activateSig →
      (∀ j : Nat, j < i → es[j]? ≠ some AppEvent.activateSig) →
      (runEvents m env cell es)[i]? = some cell := by
  induction es generalizing cell with
  | nil =>
    intro i h hmin
    simp at h
  | cons e t ih =>
    intro i h hmin
    cases i with
    | zero =>
      rw [List.getElem?_cons_zero] at h
      cases h
      rw [show runEvents m env cell (AppEvent.activateSig :: t)
          = cell :: runEvents m env none t from rfl,
        List.getElem?_cons_zero]
    | succ k =>
      rw [List.getElem?_cons_succ] at h
      have he : e ≠ AppEvent.activateSig := fun hcon => by
        exact hmin 0 (Nat.succ_pos k) (by rw [List.getElem?_cons_zero, hcon])
      have hmin2 : ∀ j : Nat, j < k → t[j]? ≠ some AppEvent.activateSig :=
        fun j hj => by
          have := hmin (j + 1) (by omega)
          rw [List.getElem?_cons_succ] at this
          exact this
      cases e with
      | activateSig => exact absurd rfl he
      | openSig fs =>
        rw [show runEvents m env cell (AppEvent.openSig fs :: t)
            = none :: runEvents m env cell t from rfl,
          List.getElem?_cons_succ]
        exact ih cell k h hmin2
      | newWindow =>
        rw [show runEvents m env cell (AppEvent.newWindow :: t)
            = none :: runEvents m env cell t from rfl,
          List.getElem?_cons_succ]
        exact ih cell k h hmin2

theorem runEvents_nonactivate_none (m : ArgMatches) (env : List String)
    (es : List AppEvent) (cell : Option String) :
    ∀ (i : Nat) (e : AppEvent), es[i]? = some e → e ≠ AppEvent.activateSig →
      (runEvents m env cell es)[i]? = some none := by
  induction es generalizing cell with
  | nil =>
    intro i e h hne
    simp at h
  | cons e0 t ih =>
    intro i e h hne
    cases i with
    | zero =>
      rw [List.getElem?_cons_zero] at h
      have he : e0 = e := Option.some.inj h
      subst he
      cases e0 with
      | activateSig => exact absurd rfl hne
      | openSig fs =>
        rw [show runEvents m env cell (AppEvent.openSig fs :: t)
            = none :: runEvents m env cell t from rfl,
          List.getElem?_cons_zero]
      | newWindow =>
        rw [show runEvents m env cell (AppEvent.newWindow :: t)
            = none :: runEvents m env cell t from rfl,
          List.getElem?_cons_zero]
    | succ k =>
      rw [List.getElem?_cons_succ] at h
      cases e0 with
      | activateSig =>
        rw [show runEvents m env cell (AppEvent.activateSig :: t)
            = cell :: runEvents m env none t from rfl,
          List.getElem?_cons_succ]
        exact ih none k e h hne
      | openSig fs =>
        rw [show runEvents m env cell (AppEvent.openSig fs :: t)
            = none :: runEvents m env cell t from rfl,
          List.getElem?_cons_succ]
        exact ih cell k e h hne
      | newWindow =>
        rw [show runEvents m env cell (AppEvent.newWindow :: t)
            = none :: runEvents m env cell t from rfl,
          List.getElem?_cons_succ]
        exact ih cell k e h hne

/-- Claim C3: the piped stdin captured at startup is handed to at most one
session — the first `activate` callback drains the shared cell and passes its
content as the session's initial input, every other activation, every `open`
invocation and the `new-window` action build their `ShellOptions` with no
initial input, and no two sessions ever receive the same piped content. -/
theorem stdin_single_session_contract (m : ArgMatches) (env : List String)
    (init : Option String) (es : List AppEvent) :
    (∀ (i : Nat) (s : String),
        (runEvents m env init es)[i]? = some (some s) →
          init = some s ∧ es[i]? = some AppEvent.activateSig ∧
            ∀ j : Nat, j < i → es[j]? ≠ some AppEvent.activateSig)
    ∧ (∀ (i j : Nat) (s u : String),
        (runEvents m env init es)[i]? = some (some s) →
        (runEvents m env init es)[j]? = some (some u) → i = j ∧ s = u)
    ∧ (∀ i : Nat, es[i]? = some AppEvent.activateSig →
        (∀ j : Nat, j < i → es[j]? ≠ some AppEvent.activateSig) →
        (runEvents m env init es)[i]? = some init)
    ∧ (∀ (i : Nat) (fs : List GFile), es[i]? = some (AppEvent.openSig fs) →
        (runEvents m env init es)[i]? = some none)
    ∧ (∀ i : Nat, es[i]? = some AppEvent.newWindow →
        (runEvents m env init es)[i]? = some none) := by
  refine ⟨runEvents_some_source m env es init, ?_, ?_, ?_, ?_⟩
  · intro i j s u hi hj
    obtain ⟨hs1, hi2, hi3⟩ := runEvents_some_source m env es init i s hi
    obtain ⟨hu1, hj2, hj3⟩ := runEvents_some_source m env es init j u hj
    have hij : i = j := by
      rcases Nat.lt_trichotomy i j with h | h | h
      · exact absurd hi2 (hj3 i h)
      · exact h
      · exact absurd hj2 (hi3 j h)
    subst hij
    rw [hi] at hj
    cases hj
    exact ⟨rfl, rfl⟩
  · exact runEvents_first_activate m env es init
  · intro i fs h
    exact runEvents_nonactivate_none m env es init i (AppEvent.openSig fs) h
      (fun hcon => by cases hcon)
  · intro i h
    exact runEvents_nonactivate_none m env es init i AppEvent.newWindow h
      (fun hcon => by cases hcon)

/-- Witness for `stdin_single_session_contract`: in the concrete trace
`[open, activate, activate, new-window]` with piped content present, the
first activation receives the content and the open callback receives none. -/
theorem stdin_single_session_contract_w :
    (runEvents ArgMatches.empty ["nvim-gtk"] (some "pipe")
        [AppEvent.openSig [], AppEvent.activateSig, AppEvent.activateSig,
          AppEvent.newWindow])[1]? = some (some "pipe")
    ∧ (runEvents ArgMatches.empty ["nvim-gtk"] (some "pipe")
        [AppEvent.openSig [], AppEvent.activateSig, AppEvent.activateSig,
          AppEvent.newWindow])[0]? = some none :=
  ⟨(stdin_single_session_contract ArgMatches.empty ["nvim-gtk"] (some "pipe")
      _).2.2.1 1 (by decide) (by decide),
   (stdin_single_session_contract ArgMatches.empty ["nvim-gtk"] (some "pipe")
      _).2.2.2.1 0 [] (by decide)⟩

end NvimGtk
